import Mathlib

/-!
Verification of the text-extraction script `compare.py`.

The script's core is
  `texts = re.findall(r'<w:t[^>]*>(.*?)</w:t>', content, re.DOTALL)`
  `full_text = ''.join(texts)`
followed by a driver that extracts from two files, writes the results to
two output files and prints lengths and 1000-character previews.

We embed the regex scan as an explicit left-to-right scanner over the
character list of the content:
 - at each position the engine tries to match the pattern; on failure it
   advances one character;
 - the pattern matches when the position starts with the literal `<w:t`,
   followed by a (greedy) run of non-'>' characters ended by the first '>'
   (this is `[^>]*>`), followed by a lazily captured body ended by the
   nearest occurrence of the literal `</w:t>` (this is `(.*?)</w:t>` under
   DOTALL, so the body may contain newlines);
 - on success the capture is recorded and scanning resumes right after the
   matched closing tag, so matches are non-overlapping.
-/

/-- The four characters of the literal `<w:t` that must open a match. -/
def openMark : List Char := ['<', 'w', ':', 't']

/-- The five-character attribute-free opening tag `<w:t>`. -/
def openTag : List Char := ['<', 'w', ':', 't', '>']

/-- The six characters of the literal closing tag `</w:t>`. -/
def closeTag : List Char := ['<', '/', 'w', ':', 't', '>']

/-- `[^>]*>`: skip the maximal run of non-'>' characters, consume the
first '>' and return what follows it; `none` when no '>' remains. -/
def scanAttrs : List Char → Option (List Char)
| [] => none
| c :: cs => if c = '>' then some cs else scanAttrs cs

/-- `(.*?)</w:t>` under DOTALL: split the input at the first occurrence of
the literal `</w:t>`, returning the (lazily minimal) capture before it and
the remainder after it; `none` when no closing tag occurs. -/
def findClose : List Char → Option (List Char × List Char)
| [] => none
| c :: cs =>
  if c = '<' ∧ cs.take 5 = ['/', 'w', ':', 't', '>'] then
    some ([], cs.drop 5)
  else
    match findClose cs with
    | some (cap, rest) => some (c :: cap, rest)
    | none => none

/-- Try the whole pattern `<w:t[^>]*>(.*?)</w:t>` anchored at the start of
`s`; on success return the captured group and the input remaining after
the closing tag. -/
def matchAt (s : List Char) : Option (List Char × List Char) :=
  if s.take 4 = openMark then
    match scanAttrs (s.drop 4) with
    | some afterGt =>
      match findClose afterGt with
      | some (cap, rest) => some (cap, rest)
      | none => none
    | none => none
  else none

/-- Fuelled scanning loop of `re.findall`: try the pattern at the current
position; on success record the capture and continue after the match, on
failure advance one character.  Each step consumes at least one character,
so fuel `s.length` is always sufficient (`findSpansGo_eq`). -/
def findSpansGo : Nat → List Char → List (List Char)
| 0, _ => []
| _ + 1, [] => []
| fuel + 1, c :: cs =>
  match matchAt (c :: cs) with
  | some (cap, rest) => cap :: findSpansGo fuel rest
  | none => findSpansGo fuel cs

/-- `re.findall(r'<w:t[^>]*>(.*?)</w:t>', s, re.DOTALL)`: the list of
captures of the non-overlapping, left-to-right matches. -/
def findSpans (s : List Char) : List (List Char) :=
  findSpansGo s.length s

/-- `extract_text_from_docx_xml`, after the file content has been read:
find all spans and join them with the empty separator (`''.join(texts)`). -/
def extract_text_from_docx_xml (content : String) : String :=
  ⟨(findSpans content.data).flatten⟩

/-- Errors the script can raise while reading a file, per the spec's
taxonomy: `open` raises on a missing/unreadable path, decoding raises when
the bytes are not valid UTF-8. -/
inductive ExtractError
| fileAccess
| decoding
deriving DecidableEq

/-- The whole `extract_text_from_docx_xml(xml_file)` including the read:
the file system is modelled as a partial map from paths to byte contents
(`none` = missing or unreadable) and UTF-8 decoding as a partial map from
bytes to strings (`none` = not decodable), matching
`open(xml_file, 'r', encoding='utf-8')` followed by `f.read()`. -/
def extract (fs : String → Option (List Nat)) (decodeUtf8 : List Nat → Option String)
    (path : String) : Except ExtractError String :=
  match fs path with
  | none => Except.error ExtractError.fileAccess
  | some bytes =>
    match decodeUtf8 bytes with
    | none => Except.error ExtractError.decoding
    | some content => Except.ok (extract_text_from_docx_xml content)

/-- The observable effects of the driver: the two texts written verbatim
to `original_text.txt` and `optimized_text.txt`, and the printed lengths
and 1000-character previews (`original[:1000]`, `optimized[:1000]`). -/
structure DriverOutput where
  originalText : String
  optimizedText : String
  originalLength : Nat
  optimizedLength : Nat
  originalPreview : String
  optimizedPreview : String
deriving DecidableEq

/-- The module-level driver of `compare.py`, as a function of the decoded
contents of the two input files. -/
def runDriver (originalContent optimizedContent : String) : DriverOutput :=
  let original := extract_text_from_docx_xml originalContent
  let optimized := extract_text_from_docx_xml optimizedContent
  { originalText := original
    optimizedText := optimized
    originalLength := original.length
    optimizedLength := optimized.length
    originalPreview := ⟨original.data.take 1000⟩
    optimizedPreview := ⟨optimized.data.take 1000⟩ }

/-- Decidable check that the literal `<w:t` occurs somewhere in `s`. -/
def containsOpen : List Char → Bool
| [] => false
| c :: cs => decide ((c :: cs).take 4 = openMark) || containsOpen cs

/-- A successful `scanAttrs` consumes at least the final '>'. -/
theorem scanAttrs_length {l r : List Char} (h : scanAttrs l = some r) :
    r.length < l.length := by
  induction l with
  | nil => simp [scanAttrs] at h
  | cons c cs ih =>
    by_cases hc : c = '>'
    · simp [scanAttrs, hc] at h
      simp [← h]
    · simp [scanAttrs, hc] at h
      have := ih h
      simp
      omega

/-- A successful `findClose` splits its input as capture ++ `</w:t>` ++ rest. -/
theorem findClose_length {l cap rest : List Char}
    (h : findClose l = some (cap, rest)) :
    cap.length + rest.length + 6 = l.length := by
  induction l generalizing cap with
  | nil => simp [findClose] at h
  | cons c cs ih =>
    by_cases hcond : c = '<' ∧ cs.take 5 = ['/', 'w', ':', 't', '>']
    · rw [findClose, if_pos hcond] at h
      have h5 : 5 ≤ cs.length := by
        have := congrArg List.length hcond.2
        simp at this
        omega
      obtain ⟨hc, hr⟩ := Prod.mk.injEq .. ▸ Option.some.injEq .. ▸ h
      subst hc; subst hr
      simp
      omega
    · rw [findClose, if_neg hcond] at h
      cases hfc : findClose cs with
      | none => rw [hfc] at h; simp at h
      | some p =>
        obtain ⟨cap', rest'⟩ := p
        rw [hfc] at h
        simp at h
        obtain ⟨hc, hr⟩ := h
        subst hc; subst hr
        have := ih hfc
        simp
        omega

/-- A successful match consumes at least 11 characters
(`<w:t`, a '>', and `</w:t>`) beyond the capture and the remainder. -/
theorem matchAt_length {s cap rest : List Char}
    (h : matchAt s = some (cap, rest)) :
    cap.length + rest.length + 11 ≤ s.length := by
  rw [matchAt] at h
  by_cases h4 : s.take 4 = openMark
  · rw [if_pos h4] at h
    cases hsa : scanAttrs (s.drop 4) with
    | none => rw [hsa] at h; simp at h
    | some afterGt =>
      simp only [hsa] at h
      cases hfc : findClose afterGt with
      | none => rw [hfc] at h; simp at h
      | some p =>
        obtain ⟨cap', rest'⟩ := p
        simp only [hfc] at h
        simp at h
        obtain ⟨hc, hr⟩ := h
        subst hc; subst hr
        have h1 := scanAttrs_length hsa
        have h2 := findClose_length hfc
        have h3 : 4 ≤ s.length := by
          have := congrArg List.length h4
          simp [openMark] at this
          omega
        have h5 : (s.drop 4).length = s.length - 4 := by simp
        omega
  · rw [if_neg h4] at h; simp at h

/-- The scanning loop ignores its fuel on the empty input. -/
theorem findSpansGo_nil (fuel : Nat) : findSpansGo fuel [] = [] := by
  cases fuel <;> rfl

/-- The scanning loop is independent of the fuel once fuel ≥ input length. -/
theorem findSpansGo_stable : ∀ (n : Nat) (s : List Char), s.length ≤ n →
    ∀ f₁ f₂ : Nat, s.length ≤ f₁ → s.length ≤ f₂ →
    findSpansGo f₁ s = findSpansGo f₂ s := by
  intro n
  induction n with
  | zero =>
    intro s hs f₁ f₂ _ _
    have : s = [] := List.eq_nil_of_length_eq_zero (by omega)
    subst this
    rw [findSpansGo_nil, findSpansGo_nil]
  | succ n ih =>
    intro s hs f₁ f₂ h₁ h₂
    cases s with
    | nil => rw [findSpansGo_nil, findSpansGo_nil]
    | cons c cs =>
      simp only [List.length_cons] at hs h₁ h₂
      obtain ⟨g₁, rfl⟩ : ∃ g, f₁ = g + 1 := ⟨f₁ - 1, by omega⟩
      obtain ⟨g₂, rfl⟩ : ∃ g, f₂ = g + 1 := ⟨f₂ - 1, by omega⟩
      cases hm : matchAt (c :: cs) with
      | some p =>
        obtain ⟨cap, rest⟩ := p
        have hl := matchAt_length hm
        simp only [List.length_cons] at hl
        simp only [findSpansGo, hm]
        have hr : rest.length ≤ n := by omega
        rw [ih rest hr g₁ g₂ (by omega) (by omega)]
      | none =>
        simp only [findSpansGo, hm]
        exact ih cs (by omega) g₁ g₂ (by omega) (by omega)

/-- Unfolding `findSpans` on a successful match at the current position. -/
theorem findSpans_cons_some {c : Char} {cs cap rest : List Char}
    (h : matchAt (c :: cs) = some (cap, rest)) :
    findSpans (c :: cs) = cap :: findSpans rest := by
  have hl := matchAt_length h
  simp only [List.length_cons] at hl
  show findSpansGo (c :: cs).length (c :: cs) = _
  simp only [List.length_cons, findSpansGo, h]
  rw [findSpansGo_stable cs.length rest (by omega) cs.length rest.length (by omega) le_rfl]
  rfl

/-- Unfolding `findSpans` on a failed match at the current position. -/
theorem findSpans_cons_none {c : Char} {cs : List Char}
    (h : matchAt (c :: cs) = none) :
    findSpans (c :: cs) = findSpans cs := by
  show findSpansGo (c :: cs).length (c :: cs) = _
  simp only [List.length_cons, findSpansGo, h]
  rfl

/-- No match can start at a character other than '<'. -/
theorem matchAt_none_of_head_ne {c : Char} {cs : List Char} (hc : c ≠ '<') :
    matchAt (c :: cs) = none := by
  rw [matchAt, if_neg]
  intro h
  have : c = '<' := by
    have := congrArg (List.headI) h
    simpa [openMark] using this
  exact hc this

/-- Characters that are not '<' are skipped without opening a span. -/
theorem findSpans_skip {u : List Char} (hu : '<' ∉ u) (t : List Char) :
    findSpans (u ++ t) = findSpans t := by
  induction u with
  | nil => rfl
  | cons c u' ih =>
    have hc : c ≠ '<' := fun h => hu (h ▸ List.mem_cons_self c u')
    have hu' : '<' ∉ u' := fun h => hu (List.mem_cons_of_mem c h)
    rw [List.cons_append, findSpans_cons_none (matchAt_none_of_head_ne hc), ih hu']

/-- `[^>]*>` consumes exactly up to the first '>' when the skipped
characters contain none. -/
theorem scanAttrs_skip {attrs : List Char} (ha : '>' ∉ attrs) (r : List Char) :
    scanAttrs (attrs ++ '>' :: r) = some r := by
  induction attrs with
  | nil => simp [scanAttrs]
  | cons c a' ih =>
    have hc : c ≠ '>' := fun h => ha (h ▸ List.mem_cons_self c a')
    have ha' : '>' ∉ a' := fun h => ha (List.mem_cons_of_mem c h)
    simp [scanAttrs, hc, ih ha']

/-- The lazy capture stops at the first closing tag: when the body contains
no '<' at all, `findClose` captures exactly the body. -/
theorem findClose_body {body : List Char} (hb : '<' ∉ body) (tail : List Char) :
    findClose (body ++ closeTag ++ tail) = some (body, tail) := by
  induction body with
  | nil =>
    show findClose ('<' :: ('/' :: 'w' :: ':' :: 't' :: '>' :: tail)) = _
    rw [findClose, if_pos]
    · simp
    · exact ⟨rfl, rfl⟩
  | cons c b' ih =>
    have hc : c ≠ '<' := fun h => hb (h ▸ List.mem_cons_self c b')
    have hb' : '<' ∉ b' := fun h => hb (List.mem_cons_of_mem c h)
    rw [List.cons_append, List.cons_append, findClose, if_neg, ih hb']
    intro h
    exact hc h.1

/-- An opening `<w:t ...>` with '>'-free attribute text, a '<'-free body and
the closing tag produce a successful match capturing exactly the body. -/
theorem matchAt_open {attrs body : List Char} (ha : '>' ∉ attrs) (hb : '<' ∉ body)
    (tail : List Char) :
    matchAt ('<' :: 'w' :: ':' :: 't' :: (attrs ++ '>' :: (body ++ closeTag ++ tail)))
      = some (body, tail) := by
  rw [matchAt, if_pos (by simp [openMark])]
  show (match scanAttrs (attrs ++ '>' :: (body ++ closeTag ++ tail)) with
    | some afterGt => _
    | none => none) = _
  rw [scanAttrs_skip ha]
  show (match findClose (body ++ closeTag ++ tail) with
    | some (cap, rest) => some (cap, rest)
    | none => none) = _
  rw [findClose_body hb]

/-- Scanning a well-formed span: the body is captured and scanning resumes
right after the closing tag. -/
theorem findSpans_open {attrs body : List Char} (ha : '>' ∉ attrs) (hb : '<' ∉ body)
    (tail : List Char) :
    findSpans ('<' :: 'w' :: ':' :: 't' :: (attrs ++ '>' :: (body ++ closeTag ++ tail)))
      = body :: findSpans tail := by
  exact findSpans_cons_some (matchAt_open ha hb tail)

/-- The attribute-free form: `<w:t>` ++ body ++ `</w:t>` ++ tail. -/
theorem findSpans_openTag {body : List Char} (hb : '<' ∉ body) (tail : List Char) :
    findSpans (openTag ++ (body ++ (closeTag ++ tail))) = body :: findSpans tail := by
  have h := @findSpans_open [] body (by simp) hb tail
  simpa [openTag, List.append_assoc] using h

/-- A bare closing tag at the front is skipped entirely (its six characters
cannot start a match). -/
theorem findSpans_closeTag_skip (t : List Char) :
    findSpans (closeTag ++ t) = findSpans t := by
  show findSpans ('<' :: '/' :: 'w' :: ':' :: 't' :: '>' :: t) = findSpans t
  rw [findSpans_cons_none, findSpans_cons_none (matchAt_none_of_head_ne (by decide)),
    findSpans_cons_none (matchAt_none_of_head_ne (by decide)),
    findSpans_cons_none (matchAt_none_of_head_ne (by decide)),
    findSpans_cons_none (matchAt_none_of_head_ne (by decide)),
    findSpans_cons_none (matchAt_none_of_head_ne (by decide))]
  rw [matchAt, if_neg]
  intro h
  have := congrArg (fun l => l.get? 1) h
  simp [openMark] at this

/-- If the literal `<w:t` occurs nowhere in the input, no span is found. -/
theorem findSpans_no_open {s : List Char} (h : containsOpen s = false) :
    findSpans s = [] := by
  induction s with
  | nil => rfl
  | cons c cs ih =>
    rw [containsOpen, Bool.or_eq_false_iff] at h
    obtain ⟨h1, h2⟩ := h
    have hm : matchAt (c :: cs) = none := by
      rw [matchAt, if_neg]
      simpa using h1
    rw [findSpans_cons_none hm, ih h2]

/-- The spans found in an input are disjoint substrings of it, so their
total length is bounded by the input length. -/
theorem findSpans_flatten_length : ∀ (n : Nat) (s : List Char), s.length ≤ n →
    (findSpans s).flatten.length ≤ s.length := by
  intro n
  induction n with
  | zero =>
    intro s hs
    have : s = [] := List.eq_nil_of_length_eq_zero (by omega)
    subst this
    exact le_rfl
  | succ n ih =>
    intro s hs
    cases s with
    | nil => exact le_rfl
    | cons c cs =>
      simp only [List.length_cons] at hs
      cases hm : matchAt (c :: cs) with
      | some p =>
        obtain ⟨cap, rest⟩ := p
        have hl := matchAt_length hm
        simp only [List.length_cons] at hl
        rw [findSpans_cons_some hm]
        have hrest := ih rest (by omega)
        simp only [List.flatten_cons, List.length_append, List.length_cons]
        omega
      | none =>
        rw [findSpans_cons_none hm]
        have := ih cs (by omega)
        simp only [List.length_cons]
        omega

/-- C1: extract collects the contents of all marker-delimited spans in
left-to-right order and concatenates them with no separator.  The first
conjunct covers spans "s1", "s2", "s3" with arbitrary marker-free
surrounding text; the second is the literal HelloWorld example with the
fixed marker identifier `w:t`. -/
theorem extract_order_and_concat :
    (∀ u0 s1 u1 s2 u2 s3 u3 : List Char,
      '<' ∉ u0 → '<' ∉ s1 → '<' ∉ u1 → '<' ∉ s2 → '<' ∉ u2 → '<' ∉ s3 → '<' ∉ u3 →
      findSpans (u0 ++ (openTag ++ s1 ++ closeTag) ++ u1 ++ (openTag ++ s2 ++ closeTag)
        ++ u2 ++ (openTag ++ s3 ++ closeTag) ++ u3) = [s1, s2, s3]) ∧
    extract_text_from_docx_xml "<w:t>Hello</w:t><w:t>World</w:t>" = "HelloWorld" := by
  constructor
  · intro u0 s1 u1 s2 u2 s3 u3 h0 h1 h2 h3 h4 h5 h6
    simp only [List.append_assoc]
    rw [findSpans_skip h0, findSpans_openTag h1, findSpans_skip h2, findSpans_openTag h3,
      findSpans_skip h4, findSpans_openTag h5]
    rw [← List.append_nil u3, findSpans_skip h6]
    rfl
  · decide

/-- Witness for C1 at concrete inputs: surrounding text "x", "y", "z", "w"
and spans "A", "B", "C" yield exactly the three spans in order. -/
theorem extract_order_and_concat_witness :
    findSpans ("x".data ++ (openTag ++ "A".data ++ closeTag) ++ "y".data
        ++ (openTag ++ "B".data ++ closeTag) ++ "z".data
        ++ (openTag ++ "C".data ++ closeTag) ++ "w".data)
      = ["A".data, "B".data, "C".data] :=
  extract_order_and_concat.1 "x".data "A".data "y".data "B".data "z".data "C".data "w".data
    (by decide) (by decide) (by decide) (by decide) (by decide) (by decide) (by decide)

/-- C2: a span's capture is the text strictly between the opening tag and
the nearest following closing tag.  The first conjunct shows that with a
second closing tag present the capture still stops at the first one and
scanning resumes after it (so spans are non-overlapping); the second shows
it on the concrete input with trailing text and a stray second closer. -/
theorem extract_nearest_close :
    (∀ body tail : List Char, '<' ∉ body →
      findSpans (openTag ++ (body ++ (closeTag ++ (closeTag ++ tail))))
        = body :: findSpans tail) ∧
    extract_text_from_docx_xml "<w:t>A</w:t>B</w:t>" = "A" := by
  constructor
  · intro body tail hb
    rw [findSpans_openTag hb, findSpans_closeTag_skip]
  · decide

/-- Witness for C2: body "A" followed by two closing tags captures only "A". -/
theorem extract_nearest_close_witness :
    findSpans (openTag ++ ("A".data ++ (closeTag ++ (closeTag ++ []))))
      = "A".data :: findSpans [] :=
  extract_nearest_close.1 "A".data [] (by decide)

/-- C3 counterexample: the claim says an opening tag whose name merely
begins with the marker identifier (here `<w:table>`) does not open a span,
so this input, whose only tag pair is `<w:table>…</w:t>`, would have to
yield "".  The code's pattern `<w:t[^>]*>` accepts `<w:table>` as an
opener, so the extraction yields "X" instead. -/
theorem extract_longer_tag_counterexample :
    extract_text_from_docx_xml "<w:table>X</w:t>" = "X" ∧
    extract_text_from_docx_xml "<w:table>X</w:t>" ≠ "" :=
  ⟨by decide, by decide⟩

/-- C3 amended: any tag of the form `<w:t` followed by any run of non-'>'
characters and '>' opens a span — including longer tag names such as
`<w:table>`, whose name continues past the marker identifier. -/
theorem extract_longer_tag_opens :
    ∀ nameRest body tail : List Char, '>' ∉ nameRest → '<' ∉ body →
      findSpans ('<' :: 'w' :: ':' :: 't' :: (nameRest ++ '>' :: (body ++ closeTag ++ tail)))
        = body :: findSpans tail := by
  intro nameRest body tail hn hb
  exact findSpans_open hn hb tail

/-- Witness for the amended C3: the longer tag name `w:table` (nameRest
"able") opens a span capturing "X". -/
theorem extract_longer_tag_opens_witness :
    findSpans ('<' :: 'w' :: ':' :: 't' :: ("able".data ++ '>' :: ("X".data ++ closeTag ++ [])))
      = "X".data :: findSpans [] :=
  extract_longer_tag_opens "able".data "X".data [] (by decide) (by decide)

/-- C4: extract fails with a file-access error exactly when the path is
missing/unreadable, with a decoding error exactly when the bytes do not
decode as UTF-8, and for every readable, decodable content it returns the
extracted text with no other failure mode. -/
theorem extract_error_modes (fs : String → Option (List Nat))
    (dec : List Nat → Option String) (path : String) :
    (extract fs dec path = Except.error ExtractError.fileAccess ↔ fs path = none) ∧
    (extract fs dec path = Except.error ExtractError.decoding ↔
      ∃ bytes, fs path = some bytes ∧ dec bytes = none) ∧
    (∀ bytes content, fs path = some bytes → dec bytes = some content →
      extract fs dec path = Except.ok (extract_text_from_docx_xml content)) := by
  cases hfs : fs path with
  | none =>
    refine ⟨by simp [extract, hfs], by simp [extract, hfs], ?_⟩
    intro bytes content hb _
    cases hb
  | some bytes =>
    cases hdec : dec bytes with
    | none =>
      refine ⟨by simp [extract, hfs, hdec], by simp [extract, hfs, hdec], ?_⟩
      intro b c hb hc
      injection hb with hb
      subst hb
      rw [hdec] at hc
      cases hc
    | some content =>
      refine ⟨by simp [extract, hfs, hdec], by simp [extract, hfs, hdec], ?_⟩
      intro b c hb hc
      injection hb with hb
      subst hb
      rw [hdec] at hc
      injection hc with hc
      subst hc
      simp [extract, hfs, hdec]

/-- Witness for C4: a concrete readable, decodable file extracts to "A",
raising no error. -/
theorem extract_error_modes_witness :
    extract (fun _ => some [60]) (fun _ => some "<w:t>A</w:t>") "p"
      = Except.ok "A" := by
  have h := (extract_error_modes (fun _ => some [60]) (fun _ => some "<w:t>A</w:t>") "p").2.2
    [60] "<w:t>A</w:t>" rfl rfl
  rw [h]
  exact congrArg Except.ok (by decide)

/-- C5: an input with no span markers at all extracts to the empty string,
and the driver still completes, writing an empty output file for it
(modelled by the corresponding text field of the driver's output). -/
theorem extract_no_marker_empty :
    ∀ content other : String, containsOpen content.data = false →
      extract_text_from_docx_xml content = "" ∧
      (runDriver content other).originalText = "" ∧
      (runDriver other content).optimizedText = "" := by
  intro content other h
  have he : extract_text_from_docx_xml content = "" := by
    show (⟨(findSpans content.data).flatten⟩ : String) = ""
    rw [findSpans_no_open h]
    rfl
  exact ⟨he, by simp [runDriver, he], by simp [runDriver, he]⟩

/-- Witness for C5: a concrete marker-free input. -/
theorem extract_no_marker_empty_witness :
    extract_text_from_docx_xml "no spans here" = "" ∧
    (runDriver "no spans here" "x").originalText = "" ∧
    (runDriver "x" "no spans here").optimizedText = "" :=
  extract_no_marker_empty "no spans here" "x" (by decide)

/-- C6: matching is not line-bounded — a body with an embedded newline is
still captured, newline included, both in general and on the concrete
input `<w:t>Line1\nLine2</w:t>`. -/
theorem extract_multiline :
    (∀ l1 l2 tail : List Char, '<' ∉ l1 → '<' ∉ l2 →
      findSpans (openTag ++ ((l1 ++ '\n' :: l2) ++ (closeTag ++ tail)))
        = (l1 ++ '\n' :: l2) :: findSpans tail) ∧
    extract_text_from_docx_xml "<w:t>Line1\nLine2</w:t>" = "Line1\nLine2" := by
  constructor
  · intro l1 l2 tail h1 h2
    apply findSpans_openTag
    intro hmem
    rcases List.mem_append.1 hmem with h | h
    · exact h1 h
    · rcases List.mem_cons.1 h with h | h
      · exact absurd h (by decide)
      · exact h2 h
  · decide

/-- Witness for C6: the two lines "Line1" and "Line2". -/
theorem extract_multiline_witness :
    findSpans (openTag ++ (("Line1".data ++ '\n' :: "Line2".data) ++ (closeTag ++ [])))
      = ("Line1".data ++ '\n' :: "Line2".data) :: findSpans [] :=
  extract_multiline.1 "Line1".data "Line2".data [] (by decide) (by decide)

/-- C7: attributes on the opening tag are ignored; the capture is the same
"Hi" whether the opening tag carries attributes or not. -/
theorem extract_attrs_ignored :
    (∀ attrs tail : List Char, '>' ∉ attrs →
      findSpans ('<' :: 'w' :: ':' :: 't' :: (attrs ++ '>' :: ("Hi".data ++ closeTag ++ tail)))
        = "Hi".data :: findSpans tail) ∧
    extract_text_from_docx_xml "<w:t attr=\"x\">Hi</w:t>" = "Hi" ∧
    extract_text_from_docx_xml "<w:t>Hi</w:t>" = "Hi" := by
  refine ⟨?_, by decide, by decide⟩
  intro attrs tail ha
  exact findSpans_open ha (by decide) tail

/-- Witness for C7: the concrete attribute text ` attr="x"`. -/
theorem extract_attrs_ignored_witness :
    findSpans ('<' :: 'w' :: ':' :: 't'
        :: (" attr=\"x\"".data ++ '>' :: ("Hi".data ++ closeTag ++ [])))
      = "Hi".data :: findSpans [] :=
  extract_attrs_ignored.1 " attr=\"x\"".data [] (by decide)

/-- C8: extraction is deterministic and referentially transparent in the
file contents: two runs over an unchanged file system and decoder give
identical results. -/
theorem extract_deterministic :
    ∀ (fs₁ fs₂ : String → Option (List Nat)) (dec₁ dec₂ : List Nat → Option String)
      (path : String),
      (∀ p, fs₁ p = fs₂ p) → (∀ b, dec₁ b = dec₂ b) →
      extract fs₁ dec₁ path = extract fs₂ dec₂ path := by
  intro fs₁ fs₂ dec₁ dec₂ path hfs hdec
  rw [funext hfs, funext hdec]

/-- Witness for C8: two runs over the same concrete file system. -/
theorem extract_deterministic_witness :
    extract (fun _ => some [60]) (fun _ => some "<w:t>A</w:t>") "p"
      = extract (fun _ => some [60]) (fun _ => some "<w:t>A</w:t>") "p" :=
  extract_deterministic _ _ _ _ "p" (fun _ => rfl) (fun _ => rfl)

/-- C9: the end-to-end driver on the two-span inputs writes "FooBar" and
"FooBaz", reports lengths 6 and 6, and previews (first 1000 characters)
equal to the full strings. -/
theorem driver_end_to_end :
    runDriver "<w:t>Foo</w:t><w:t>Bar</w:t>" "<w:t>Foo</w:t><w:t>Baz</w:t>"
      = { originalText := "FooBar", optimizedText := "FooBaz",
          originalLength := 6, optimizedLength := 6,
          originalPreview := "FooBar", optimizedPreview := "FooBaz" } := by
  decide

/-- C10: the extracted text is never longer than the input content, since
the spans are disjoint substrings of it. -/
theorem extract_length_le (content : String) :
    (extract_text_from_docx_xml content).length ≤ content.length := by
  show (findSpans content.data).flatten.length ≤ content.data.length
  exact findSpans_flatten_length content.data.length content.data le_rfl
